import Mathlib

/-!
Verification of the Holista dashboard core: number formatting
(`format_indian`, `format_number`), column reconciliation, aging-bucket
aggregation, risk classification, sales-order overdue selection, and the
stock-ageing fallback loader, shallowly embedded from the Python source.

Python floats are modelled as `Option ℚ` (with `none` playing the role of
`NaN`/missing); dates are modelled as integer day numbers; dataframes are
modelled as lists of rows or of named columns.
-/

namespace Holista

/-- Truncation toward zero, the behaviour of Python `int()` on a float. -/
def truncQ (q : ℚ) : ℤ :=
  if 0 ≤ q then Rat.floor q else -Rat.floor (-q)

/-- Round-half-to-even to the nearest integer, the rounding used by Python
float formatting. -/
def roundHalfEven (x : ℚ) : ℤ :=
  let f := Rat.floor x
  let r := x - f
  if r < 1/2 then f
  else if 1/2 < r then f + 1
  else if f % 2 = 0 then f else f + 1

/-- The two-decimal rendering of Python `f"{val:.2f}"`. -/
def fixed2 (q : ℚ) : String :=
  let sign := if q < 0 then "-" else ""
  let n := (roundHalfEven (|q| * 100)).toNat
  sign ++ Nat.repr (n / 100) ++ "." ++
    (if n % 100 < 10 then "0" else "") ++ Nat.repr (n % 100)

/-- Python `.rstrip('0').rstrip('.')` applied to the two-decimal rendering. -/
def stripTrailing (s : String) : String :=
  let l := (s.toList.reverse.dropWhile (· = '0')).dropWhile (· = '.')
  String.mk l.reverse

/-- The `while s:` loop of `format_indian`: peel two-digit groups off the
right of `s`, prepending each (with a comma) to the accumulated suffix.
The loop strictly shrinks `s`, so running it with fuel `s.length` is the
exact Python loop; fuel only makes the recursion structural. -/
def groupLoop : ℕ → List Char → List Char → List Char
  | _, [], acc => acc
  | 0, _, acc => acc
  | fuel + 1, s, acc =>
      groupLoop fuel (s.take (s.length - 2)) (s.drop (s.length - 2) ++ ',' :: acc)

/-- The digit-grouping core of `format_indian`: digit strings of length at
most 3 are returned unchanged, otherwise the last three digits form one
group and the remaining prefix is looped through in two-digit groups. -/
def formatIndianDigits (s : List Char) : List Char :=
  if s.length ≤ 3 then s
  else groupLoop (s.take (s.length - 3)).length (s.take (s.length - 3)) (s.drop (s.length - 3))

/-- `format_indian` from `overduepaymentholista.py`: Indian comma grouping of
the truncated integer magnitude, `"0"` for `NaN` (`none`) or zero. -/
def formatIndian (o : Option ℚ) : String :=
  match o with
  | none => "0"
  | some q =>
      let sign := if 0 ≤ q then "" else "-"
      let n := (truncQ q).natAbs
      if n = 0 then "0"
      else sign ++ String.mk (formatIndianDigits (Nat.repr n).toList)

/-- `format_number` from `overduepaymentholista.py`: K/L/Cr abbreviation when
`short` is set, Indian grouping otherwise, optional rupee prefix. -/
def formatNumber (o : Option ℚ) (currency short : Bool) : String :=
  match o with
  | none => "0"
  | some num =>
      let absnum := |num|
      if short then
        if 10000000 ≤ absnum then
          let fv := stripTrailing (fixed2 (num / 10000000))
          if currency then "₹ " ++ fv ++ "Cr" else fv ++ "Cr"
        else if 100000 ≤ absnum then
          let fv := stripTrailing (fixed2 (num / 100000))
          if currency then "₹ " ++ fv ++ "L" else fv ++ "L"
        else if 1000 ≤ absnum then
          let fv := stripTrailing (fixed2 (num / 1000))
          if currency then "₹ " ++ fv ++ "K" else fv ++ "K"
        else
          let f := formatIndian (some num)
          if currency then "₹ " ++ f else f
      else
        let f := formatIndian (some num)
        if currency then "₹ " ++ f else f

/-- Spec-side definition for the C7 refinement, following the claim's
words and not the code: the two-digit groups of a digit-string prefix,
taken from the right; the input is the reversed prefix, so the recursion
is structural. -/
def twoGroupsRev : List Char → List (List Char)
  | [] => []
  | [a] => [[a]]
  | a :: b :: rest => [b, a] :: twoGroupsRev rest

/-- Spec-side definition for the C7 refinement: the claim's grouping of a
digit string — the last three digits form one group, preceded by
two-digit groups to the left. -/
def indianGroupsSpec (s : List Char) : List (List Char) :=
  if s.length ≤ 3 then [s]
  else (twoGroupsRev (s.take (s.length - 3)).reverse).reverse ++ [s.drop (s.length - 3)]

/-- Spec-side definition for the C7 refinement: comma-separate groups. -/
def commaJoin : List (List Char) → List Char
  | [] => []
  | [g] => g
  | g :: gs => g ++ ',' :: commaJoin gs

/-- Python `str.strip()` on a character list: drop whitespace from both
ends. -/
def pyStripChars (cs : List Char) : List Char :=
  ((cs.dropWhile Char.isWhitespace).reverse.dropWhile Char.isWhitespace).reverse

/-- Python `str.strip()` / pandas `.str.strip()`. -/
def pyStrip (s : String) : String :=
  String.mk (pyStripChars s.toList)

/-! ### Receivables / creditors rows and risk classification -/

/-- One row of the overdue-receivables sheet: business-partner code and name,
the three tail aging buckets used for the high-risk table, and the total
balance column `Balance/G.Total`. -/
structure RRow where
  code : String
  name : String
  d61to90 : ℚ
  d91to120 : ℚ
  d121plus : ℚ
  bal : ℚ
deriving DecidableEq, Repr

/-- `High_Risk_Amount`: the sum of the 61-90, 91-120 and 121+ buckets. -/
def highRiskAmount (r : RRow) : ℚ :=
  r.d61to90 + r.d91to120 + r.d121plus

/-- The active customer set `cust_df`: deduplicated `(BP Code, BP Name)`
pairs of rows with strictly positive balance. -/
def activePairs (rows : List RRow) : List (String × String) :=
  ((rows.filter (fun r => decide (0 < r.bal))).map (fun r => (r.code, r.name))).dedup

/-- `total_customers`: the length of `cust_df`. -/
def activeCount (rows : List RRow) : ℕ :=
  (activePairs rows).length

/-- The high-risk table of the receivables dashboard: rows with positive
`High_Risk_Amount`, merged with the active customer set only when that set
is nonempty (`if not cust_df.empty`). -/
def highRiskRows (rows : List RRow) : List RRow :=
  let hr := rows.filter (fun r => decide (0 < highRiskAmount r))
  if activePairs rows = [] then hr
  else hr.filter (fun r => decide ((r.code, r.name) ∈ activePairs rows))

/-- One row of the overdue-creditors sheet: code, name, the two tail aging
buckets of the 91+ risk analysis, and the total balance. -/
structure CRow where
  code : String
  name : String
  d91to120 : ℚ
  d121plus : ℚ
  bal : ℚ
deriving DecidableEq, Repr

/-- `Risk_Amount`: the sum of the 91-120 and 121+ buckets. -/
def riskAmountC (r : CRow) : ℚ :=
  r.d91to120 + r.d121plus

/-- The active creditor set `cred_df`. -/
def activePairsC (rows : List CRow) : List (String × String) :=
  ((rows.filter (fun r => decide (0 < r.bal))).map (fun r => (r.code, r.name))).dedup

/-- The risk table of the creditors dashboard: rows with positive
`Risk_Amount` and positive balance, merged with the active creditor set
only when that set is nonempty. -/
def riskRowsC (rows : List CRow) : List CRow :=
  let rr := rows.filter (fun r => decide (0 < riskAmountC r) && decide (0 < r.bal))
  if activePairsC rows = [] then rr
  else rr.filter (fun r => decide ((r.code, r.name) ∈ activePairsC rows))

/-! ### Overdue sales-order selection and aging buckets -/

/-- One open-sales-order line. Numeric cells are `Option ℚ` (`none` for an
unparsable or missing cell), dates are `Option ℤ` day numbers (`none` for a
missing date, the `NaT` of the source). -/
structure SRow where
  lineStatus : String
  openQty : Option ℚ
  lineTotal : Option ℚ
  postingDate : Option ℤ
  dueDate : Option ℤ
deriving DecidableEq, Repr

/-- The open-and-overdue selection of the Overdue Sales Orders page:
line status stripped and compared with `"O"`, then open quantity coerced
with zero fallback and required positive, then line amount likewise. -/
def filterOpenOverdue (rows : List SRow) : List SRow :=
  ((rows.filter (fun r => decide (pyStrip r.lineStatus = "O"))).filter
      (fun r => decide (0 < r.openQty.getD 0))).filter
    (fun r => decide (0 < r.lineTotal.getD 0))

/-- `Overdue Days` of one row: reference date minus posting date when the
posting date is present, missing (`NaT`-propagated `NaN`) otherwise. -/
def overdueDaysOf (today : ℤ) (r : SRow) : Option ℤ :=
  r.postingDate.map (fun d => today - d)

/-- The `Overdue Days` column: per-row reference-minus-posting when the
`Posting Date` column is present, the all-zero column otherwise. -/
def overdueDaysColumn (hasPostingCol : Bool) (today : ℤ) (rows : List SRow) :
    List (Option ℤ) :=
  if hasPostingCol then rows.map (overdueDaysOf today)
  else rows.map (fun _ => some 0)

/-- `pd.cut` with `bins = [0,15,30,60,90,9999]`, `right=True`: the bucket
index of an overdue-days value, `none` when the value falls in no bucket
(missing, non-positive, or beyond the last edge). -/
def bucketIndex (d : Option ℤ) : Option (Fin 5) :=
  match d with
  | none => none
  | some x =>
      if x ≤ 0 then none
      else if x ≤ 15 then some 0
      else if x ≤ 30 then some 1
      else if x ≤ 60 then some 2
      else if x ≤ 90 then some 3
      else if x ≤ 9999 then some 4
      else none

/-- The amount of one aging bucket over `(Overdue Days, LineTotalBeforeTax)`
pairs: the sum of the amounts of the rows that `pd.cut` assigns to it. -/
def bucketAmount (rows : List (Option ℤ × ℚ)) (b : Fin 5) : ℚ :=
  ((rows.filter (fun p => decide (bucketIndex p.1 = some b))).map Prod.snd).sum

/-- The sum of the five displayed bucket amounts. -/
def bucketTotalSum (rows : List (Option ℤ × ℚ)) : ℚ :=
  ((List.finRange 5).map (bucketAmount rows)).sum

/-- The `Total Overdue Value` KPI: the sum of all line amounts of the
filtered rows. -/
def totalOverdueValue (rows : List (Option ℤ × ℚ)) : ℚ :=
  (rows.map Prod.snd).sum

/-! ### Column reconciliation -/

/-- A raw spreadsheet cell: already numeric, free text, or empty/missing. -/
inductive CellValue where
  | num (q : ℚ)
  | text (s : String)
  | blank
deriving DecidableEq, Repr

/-- The value of a digit string. -/
def digitsVal (cs : List Char) : ℕ :=
  cs.foldl (fun n c => n * 10 + (c.toNat - 48)) 0

/-- An unsigned decimal literal: integer digits with an optional fraction
part after one dot. Anything else is `none`. -/
def parseUnsigned (cs : List Char) : Option ℚ :=
  match cs.span Char.isDigit with
  | (ip, []) => if ip.isEmpty then none else some ((digitsVal ip : ℚ))
  | (ip, '.' :: fp) =>
      if fp.all Char.isDigit && !(ip.isEmpty && fp.isEmpty) then
        some ((digitsVal ip : ℚ) + (digitsVal fp : ℚ) / (10 : ℚ) ^ fp.length)
      else none
  | _ => none

/-- The numeric-string forms accepted by `pd.to_numeric`: optional
surrounding whitespace, optional sign, decimal literal. -/
def parseRatStr (s : String) : Option ℚ :=
  match pyStripChars s.toList with
  | '-' :: rest => (parseUnsigned rest).map (fun q => -q)
  | '+' :: rest => parseUnsigned rest
  | cs => parseUnsigned cs

/-- `pd.to_numeric(col, errors='coerce').fillna(0)` on one cell: numbers
pass through, parsable text becomes its number, anything else becomes 0. -/
def coerceCell (c : CellValue) : ℚ :=
  match c with
  | .num q => q
  | .blank => 0
  | .text s => (parseRatStr s).getD 0

/-- The reconciliation step of the overdue-payment dashboard: strip every
column name, then coerce every column whose (stripped) name is one of the
declared numeric columns. Total on every input dataset. -/
def reconcileNumeric (numericCols : List String) (ds : List (String × List CellValue)) :
    List (String × List CellValue) :=
  (ds.map (fun col => (pyStrip col.1, col.2))).map
    (fun col =>
      if col.1 ∈ numericCols then
        (col.1, col.2.map (fun v => CellValue.num (coerceCell v)))
      else col)

/-! ### Stock-ageing fallback loader -/

/-- `add_candidate`: append a path unless it is empty or already present. -/
def addCandidate (acc : List String) (p : String) : List String :=
  if p ≠ "" ∧ p ∉ acc then acc ++ [p] else acc

/-- `configured_path.rsplit("/", 1)[0]`: the directory of a remote path. -/
def baseDir (s : String) : String :=
  String.intercalate "/" ((s.splitOn "/").dropLast)

/-- The candidate list of `load_stock_ageing_data`: `add_candidate` is run
on the configured primary path, then the two alternate configured keys,
then (when the primary path names a directory) the well-known filenames in
that directory. -/
def buildCandidates (configured stockAgeing inventoryAgeing : String) : List String :=
  let base := baseDir configured
  let extras :=
    if configured ≠ "" ∧ configured.contains '/' then
      [base ++ "/Inventory_Ageing_Report.xlsx",
       base ++ "/inventory_ageing_report.csv",
       base ++ "/stock agenging.xlsx",
       base ++ "/stock ageing.xlsx",
       base ++ "/stock_ageing.xlsx"]
    else []
  (configured :: stockAgeing :: inventoryAgeing :: extras).foldl addCandidate []

/-- The `for ... else` loop: try each candidate, remembering the last
error; the first component is the first successful decode, the second is
the last error seen. -/
def tryPaths {E D : Type} (fetch : String → Except E D) :
    List String → Option E → Option D × Option E
  | [], last => (none, last)
  | p :: rest, last =>
      match fetch p with
      | .ok d => (some d, last)
      | .error e => tryPaths fetch rest (some e)

/-- `load_stock_ageing_data` after the candidate list is built: the first
successful decode, or a not-found error carrying every attempted path and
the last underlying error. -/
def loadFromCandidates {E D : Type} (fetch : String → Except E D) (paths : List String) :
    Except (List String × Option E) D :=
  match tryPaths fetch paths none with
  | (some d, _) => Except.ok d
  | (none, last) => Except.error (paths, last)

/-! ## Theorems -/

/-- C3: a sales-order line is selected as open and overdue iff its stripped
status flag is the open marker `"O"`, its open quantity is strictly
positive and its line amount before tax is strictly positive; and the age
used for bucketing is computed from the posting date only — it is invariant
under any change of the due-date field, even when a due date is present. -/
theorem c3_open_overdue_selection :
    (∀ (rows : List SRow) (r : SRow),
        r ∈ filterOpenOverdue rows ↔
          r ∈ rows ∧ pyStrip r.lineStatus = "O" ∧
            0 < r.openQty.getD 0 ∧ 0 < r.lineTotal.getD 0)
    ∧ (∀ (today : ℤ) (r : SRow) (d : Option ℤ),
        overdueDaysOf today { r with dueDate := d } = overdueDaysOf today r)
    ∧ (∀ (today : ℤ) (r : SRow),
        overdueDaysOf today r = r.postingDate.map (fun p => today - p))
    ∧ (∀ (today : ℤ) (r : SRow) (d : Option ℤ),
        bucketIndex (overdueDaysOf today { r with dueDate := d }) =
          bucketIndex (overdueDaysOf today r)) := by
  refine ⟨?_, fun _ _ _ => rfl, fun _ _ => rfl, fun _ _ _ => rfl⟩
  intro rows r
  simp only [filterOpenOverdue, List.mem_filter, decide_eq_true_eq]
  tauto

/-- C8: the active-entity count equals the number of distinct
`(code, name)` pairs among rows with strictly positive balance, and on the
spec's example `[(A,100),(A,100),(B,-5),(C,0)]` it is 1. -/
theorem c8_active_entity_count :
    (∀ rows : List RRow,
        activeCount rows =
          ((rows.filter (fun r => decide (0 < r.bal))).map
              (fun r => (r.code, r.name))).toFinset.card)
    ∧ activeCount
        [⟨"A", "A", 0, 0, 0, 100⟩, ⟨"A", "A", 0, 0, 0, 100⟩,
         ⟨"B", "B", 0, 0, 0, -5⟩, ⟨"C", "C", 0, 0, 0, 0⟩] = 1 := by
  constructor
  · intro rows
    rw [activeCount, activePairs]
    exact (List.card_toFinset _).symm
  · with_unfolding_all decide

/-- C9: for every value `v` with `0 ≤ v < 1000` and either currency
setting, the abbreviated output of the formatter equals its unabbreviated
output (the full Indian-grouped rendering, no suffix). -/
theorem c9_small_values_unabbreviated (q : ℚ) (c : Bool)
    (h0 : 0 ≤ q) (h1 : q < 1000) :
    formatNumber (some q) c true = formatNumber (some q) c false := by
  have habs : |q| = q := abs_of_nonneg h0
  have h7 : ¬ (10000000 ≤ |q|) := by rw [habs]; linarith
  have h5 : ¬ (100000 ≤ |q|) := by rw [habs]; linarith
  have h3 : ¬ (1000 ≤ |q|) := by rw [habs]; linarith
  simp [formatNumber, h7, h5, h3]

/-- Witness for C9 at `v = 500`. -/
theorem c9_small_values_unabbreviated_witness :
    (0 ≤ (500 : ℚ)) ∧ ((500 : ℚ) < 1000) ∧
      formatNumber (some 500) true true = formatNumber (some 500) true false :=
  ⟨by norm_num, by norm_num,
    c9_small_values_unabbreviated 500 true (by norm_num) (by norm_num)⟩

/-- C10: `pd.cut` over `bins = [0,15,30,60,90,9999]` with `right=True`
yields the half-open-below intervals (0,15], (15,30], (30,60], (60,90],
(90,9999]; a line whose overdue days are zero, negative or missing falls
in no bucket, and on a concrete input the sum of the five bucket amounts
is strictly below the Total Overdue Value over the same rows. -/
theorem c10_bucket_rollup_undercount :
    (∀ x : ℤ, x ≤ 0 → bucketIndex (some x) = none)
    ∧ bucketIndex none = none
    ∧ (∀ x : ℤ, 0 < x → x ≤ 15 → bucketIndex (some x) = some 0)
    ∧ (∀ x : ℤ, 15 < x → x ≤ 30 → bucketIndex (some x) = some 1)
    ∧ (∀ x : ℤ, 30 < x → x ≤ 60 → bucketIndex (some x) = some 2)
    ∧ (∀ x : ℤ, 60 < x → x ≤ 90 → bucketIndex (some x) = some 3)
    ∧ (∀ x : ℤ, 90 < x → x ≤ 9999 → bucketIndex (some x) = some 4)
    ∧ bucketTotalSum [(some 0, 100)] < totalOverdueValue [(some 0, 100)] := by
  refine ⟨?_, rfl, ?_, ?_, ?_, ?_, ?_, ?_⟩
  · intro x h; simp only [bucketIndex]; rw [if_pos h]
  · intro x h1 h2; simp only [bucketIndex]; split_ifs <;> first | rfl | omega
  · intro x h1 h2; simp only [bucketIndex]; split_ifs <;> first | rfl | omega
  · intro x h1 h2; simp only [bucketIndex]; split_ifs <;> first | rfl | omega
  · intro x h1 h2; simp only [bucketIndex]; split_ifs <;> first | rfl | omega
  · intro x h1 h2; simp only [bucketIndex]; split_ifs <;> first | rfl | omega
  · with_unfolding_all decide

/-- Witness for C10 at overdue days 0 and at overdue days 7. -/
theorem c10_bucket_rollup_undercount_witness :
    ((0 : ℤ) ≤ 0 ∧ bucketIndex (some 0) = none)
    ∧ ((0 : ℤ) < 7 ∧ (7 : ℤ) ≤ 15 ∧ bucketIndex (some 7) = some 0) :=
  ⟨⟨le_refl 0, c10_bucket_rollup_undercount.1 0 (le_refl 0)⟩,
    ⟨by decide, by decide,
      c10_bucket_rollup_undercount.2.2.1 7 (by decide) (by decide)⟩⟩

/-- C2 counterexample: with the `Posting Date` column present, a row whose
posting date is missing receives a missing overdue age (the `NaN` of
`today - NaT`), not the age zero the claim asserts. -/
theorem c2_counterexample :
    overdueDaysColumn true 0 [⟨"O", none, none, none, none⟩] = [none]
    ∧ (none : Option ℤ) ≠ some 0 :=
  ⟨rfl, by decide⟩

/-- C2 as amended: when the posting-date column is present each row's age
is the reference date minus its posting date in whole days, and a row
lacking a posting date receives a missing age — which falls in no aging
bucket, so downstream bucketing does not crash; the all-zero fallback
applies only when the entire posting-date column is absent. -/
theorem c2_overdue_age (today : ℤ) (rows : List SRow) :
    overdueDaysColumn true today rows =
        rows.map (fun r => r.postingDate.map (fun p => today - p))
    ∧ overdueDaysColumn false today rows = rows.map (fun _ => some 0)
    ∧ (∀ r : SRow, r.postingDate = none → overdueDaysOf today r = none)
    ∧ bucketIndex none = none := by
  refine ⟨rfl, rfl, ?_, rfl⟩
  intro r h
  simp [overdueDaysOf, h]

/-- Witness for C2's amended statement at a concrete dateless row. -/
theorem c2_overdue_age_witness :
    (⟨"O", none, none, none, none⟩ : SRow).postingDate = none
    ∧ overdueDaysOf 5 ⟨"O", none, none, none, none⟩ = none :=
  ⟨rfl, (c2_overdue_age 5 []).2.2.1 ⟨"O", none, none, none, none⟩ rfl⟩

/-- C5: a column whose name matches an expected numeric column after
whitespace stripping is recognized and fully coerced — every cell becomes
a number, unparsable text and missing cells become zero — and the
reconciliation is total: it never raises, on any input dataset. -/
theorem c5_numeric_reconciliation (cols : List String)
    (ds : List (String × List CellValue)) (name : String) (vs : List CellValue)
    (hmem : (name, vs) ∈ ds) (hcol : pyStrip name ∈ cols) :
    (pyStrip name, vs.map (fun v => CellValue.num (coerceCell v))) ∈ reconcileNumeric cols ds
    ∧ coerceCell (.text "not a number") = 0
    ∧ coerceCell .blank = 0
    ∧ (∀ q, coerceCell (.num q) = q)
    ∧ pyStrip " Balance/G.Total " = "Balance/G.Total"
    ∧ (reconcileNumeric cols ds).length = ds.length := by
  refine ⟨?_, rfl, rfl, fun q => rfl, by decide, by simp [reconcileNumeric]⟩
  refine List.mem_map.mpr ⟨(pyStrip name, vs), List.mem_map.mpr ⟨(name, vs), hmem, rfl⟩, ?_⟩
  simp [hcol]

/-- Witness for C5 on a whitespace-padded balance column with one
unparsable cell, one numeric cell and one blank cell. -/
theorem c5_numeric_reconciliation_witness :
    ((" Balance/G.Total ", [CellValue.text "abc", CellValue.num 5, CellValue.blank]) ∈
        ([(" Balance/G.Total ", [CellValue.text "abc", CellValue.num 5, CellValue.blank])] :
          List (String × List CellValue)))
    ∧ pyStrip " Balance/G.Total " ∈ ["Balance/G.Total"]
    ∧ ("Balance/G.Total", [CellValue.num 0, CellValue.num 5, CellValue.num 0]) ∈
        reconcileNumeric ["Balance/G.Total"]
          [(" Balance/G.Total ", [CellValue.text "abc", CellValue.num 5, CellValue.blank])] := by
  refine ⟨by decide, by decide, ?_⟩
  have h := (c5_numeric_reconciliation ["Balance/G.Total"]
    [(" Balance/G.Total ", [CellValue.text "abc", CellValue.num 5, CellValue.blank])]
    " Balance/G.Total " [CellValue.text "abc", CellValue.num 5, CellValue.blank]
    (by decide) (by decide)).1
  have e1 : pyStrip " Balance/G.Total " = "Balance/G.Total" := by decide
  have e2 : List.map (fun v => CellValue.num (coerceCell v))
      [CellValue.text "abc", CellValue.num 5, CellValue.blank] =
      [CellValue.num 0, CellValue.num 5, CellValue.num 0] := by decide
  rw [e1, e2] at h
  exact h

/-- `addCandidate` never empties a nonempty accumulator. -/
theorem addCandidate_ne_nil (acc : List String) (p : String) (h : acc ≠ []) :
    addCandidate acc p ≠ [] := by
  unfold addCandidate
  split
  · simp
  · exact h

/-- `addCandidate` appends at the back, so it preserves the head. -/
theorem addCandidate_head (acc : List String) (p : String) (h : acc ≠ []) :
    (addCandidate acc p).head? = acc.head? := by
  cases acc with
  | nil => exact absurd rfl h
  | cons a t =>
      unfold addCandidate
      split <;> rfl

/-- Folding `addCandidate` over further paths preserves the head of a
nonempty accumulator. -/
theorem foldl_addCandidate_head :
    ∀ (ps : List String) (acc : List String), acc ≠ [] →
      (ps.foldl addCandidate acc).head? = acc.head? := by
  intro ps
  induction ps with
  | nil => intro acc h; rfl
  | cons p t ih =>
      intro acc h
      rw [List.foldl_cons, ih _ (addCandidate_ne_nil _ _ h), addCandidate_head _ _ h]

/-- If every path of a prefix fails and `p` succeeds with `d`, the try
loop stops at `p` with value `d`. -/
theorem tryPaths_first_ok {E D : Type} (fetch : String → Except E D) (d : D) :
    ∀ (pre rest : List String) (p : String) (last : Option E),
      (∀ x ∈ pre, ∃ e, fetch x = Except.error e) → fetch p = Except.ok d →
      ∃ l, tryPaths fetch (pre ++ p :: rest) last = (some d, l) := by
  intro pre
  induction pre with
  | nil =>
      intro rest p last hpre hp
      exact ⟨last, by simp [tryPaths, hp]⟩
  | cons a t ih =>
      intro rest p last hpre hp
      obtain ⟨e, he⟩ := hpre a (List.mem_cons_self a t)
      obtain ⟨l, hl⟩ := ih rest p (some e)
        (fun x hx => hpre x (List.mem_cons_of_mem _ hx)) hp
      exact ⟨l, by simp [tryPaths, he, hl]⟩

/-- If every path of the list fails and the final path fails with
`elast`, the try loop ends with no value and last error `elast`. -/
theorem tryPaths_all_error {E D : Type} (fetch : String → Except E D) (elast : E) :
    ∀ (init : List String) (q : String) (last : Option E),
      (∀ x ∈ init, ∃ e, fetch x = Except.error e) → fetch q = Except.error elast →
      tryPaths fetch (init ++ [q]) last = (none, some elast) := by
  intro init
  induction init with
  | nil =>
      intro q last h hq
      simp [tryPaths, hq]
  | cons a t ih =>
      intro q last h hq
      obtain ⟨e, he⟩ := h a (List.mem_cons_self a t)
      simp only [List.cons_append, tryPaths, he]
      exact ih q (some e) (fun x hx => h x (List.mem_cons_of_mem _ hx)) hq

/-- C4: the stock-ageing loader tries the candidates in order with the
configured primary path first; it returns the first candidate that decodes
successfully; and when every candidate fails it raises a not-found error
carrying every attempted path and the last underlying error. -/
theorem c4_fallback_loader {E D : Type} (fetch : String → Except E D)
    (c s i : String) (pre rest init : List String) (p q : String)
    (d : D) (elast : E) :
    (c ≠ "" → (buildCandidates c s i).head? = some c)
    ∧ ((∀ x ∈ pre, ∃ e, fetch x = Except.error e) → fetch p = Except.ok d →
        loadFromCandidates fetch (pre ++ p :: rest) = Except.ok d)
    ∧ ((∀ x ∈ init, ∃ e, fetch x = Except.error e) → fetch q = Except.error elast →
        loadFromCandidates fetch (init ++ [q]) =
          Except.error (init ++ [q], some elast)) := by
  refine ⟨?_, ?_, ?_⟩
  · intro hc
    have h0 : addCandidate [] c = [c] := by simp [addCandidate, hc]
    unfold buildCandidates
    rw [List.foldl_cons, h0, foldl_addCandidate_head _ [c] (by simp)]
    rfl
  · intro hpre hp
    obtain ⟨l, hl⟩ := tryPaths_first_ok fetch d pre rest p none hpre hp
    unfold loadFromCandidates
    rw [hl]
  · intro hinit hq
    have h := tryPaths_all_error fetch elast init q none hinit hq
    unfold loadFromCandidates
    rw [h]

/-- Witness for C4 on the spec's `[P1 (404), P2 (404), P3 (success)]`
example, the all-fail case, and a concrete configured path. -/
theorem c4_fallback_loader_witness :
    loadFromCandidates
        (fun x => if x = "P3" then (Except.ok 7 : Except String ℕ)
          else Except.error ("404 " ++ x)) ["P1", "P2", "P3"] = Except.ok 7
    ∧ loadFromCandidates
        (fun x => if x = "P3" then (Except.ok 7 : Except String ℕ)
          else Except.error ("404 " ++ x)) ["P1", "P2"] =
        Except.error (["P1", "P2"], some "404 P2")
    ∧ (buildCandidates "dir/a.xlsx" "" "").head? = some "dir/a.xlsx" := by
  have hfail : ∀ x ∈ ["P1", "P2"],
      ∃ e, (fun x => if x = "P3" then (Except.ok 7 : Except String ℕ)
        else Except.error ("404 " ++ x)) x = Except.error e := by
    intro x hx
    simp only [List.mem_cons, List.not_mem_nil, or_false] at hx
    rcases hx with rfl | rfl
    · exact ⟨"404 P1", rfl⟩
    · exact ⟨"404 P2", rfl⟩
  have hfail1 : ∀ x ∈ ["P1"],
      ∃ e, (fun x => if x = "P3" then (Except.ok 7 : Except String ℕ)
        else Except.error ("404 " ++ x)) x = Except.error e := by
    intro x hx
    simp only [List.mem_cons, List.not_mem_nil, or_false] at hx
    rcases hx with rfl
    exact ⟨"404 P1", rfl⟩
  refine ⟨?_, ?_, ?_⟩
  · exact (c4_fallback_loader
      (fun x => if x = "P3" then (Except.ok 7 : Except String ℕ)
        else Except.error ("404 " ++ x))
      "c" "" "" ["P1", "P2"] [] [] "P3" "q" 7 "e").2.1 hfail rfl
  · exact (c4_fallback_loader
      (fun x => if x = "P3" then (Except.ok 7 : Except String ℕ)
        else Except.error ("404 " ++ x))
      "c" "" "" [] [] ["P1"] "p" "P2" 7 "404 P2").2.2 hfail1 rfl
  · exact (c4_fallback_loader
      (fun x => (Except.error "never" : Except String ℕ))
      "dir/a.xlsx" "" "" [] [] [] "p" "q" 7 "e").1 (by decide)

/-- C6: with abbreviation enabled the formatter divides by 10^7 / 10^5 /
10^3 according to the magnitude thresholds, renders the quotient to two
decimals with trailing zeros and trailing point stripped, appends the
Cr/L/K suffix, and falls back to the full Indian-grouped format below
1000; in particular 1,500,000 renders as `"₹ 15L"` and 12,500,000 as
`"₹ 1.25Cr"`. -/
theorem c6_abbreviation_thresholds (q : ℚ) (c : Bool) :
    (10000000 ≤ |q| →
      formatNumber (some q) c true =
        (if c then "₹ " else "") ++ stripTrailing (fixed2 (q / 10000000)) ++ "Cr")
    ∧ (100000 ≤ |q| → |q| < 10000000 →
      formatNumber (some q) c true =
        (if c then "₹ " else "") ++ stripTrailing (fixed2 (q / 100000)) ++ "L")
    ∧ (1000 ≤ |q| → |q| < 100000 →
      formatNumber (some q) c true =
        (if c then "₹ " else "") ++ stripTrailing (fixed2 (q / 1000)) ++ "K")
    ∧ (|q| < 1000 →
      formatNumber (some q) c true = (if c then "₹ " else "") ++ formatIndian (some q))
    ∧ formatNumber (some 1500000) true true = "₹ 15L"
    ∧ formatNumber (some 12500000) true true = "₹ 1.25Cr" := by
  refine ⟨?_, ?_, ?_, ?_, by with_unfolding_all rfl, by with_unfolding_all rfl⟩
  · intro h
    cases c <;> simp [formatNumber, h]
  · intro h1 h2
    cases c <;> simp [formatNumber, h1, not_le.mpr h2]
  · intro h1 h2
    have h5 : ¬ (100000 ≤ |q|) := not_le.mpr h2
    have h7 : ¬ (10000000 ≤ |q|) := not_le.mpr (h2.trans (by norm_num))
    cases c <;> simp [formatNumber, h1, h5, h7]
  · intro h
    have h3 : ¬ (1000 ≤ |q|) := not_le.mpr h
    have h5 : ¬ (100000 ≤ |q|) := not_le.mpr (h.trans (by norm_num))
    have h7 : ¬ (10000000 ≤ |q|) := not_le.mpr (h.trans (by norm_num))
    cases c <;> simp [formatNumber, h3, h5, h7]

/-- Witness for C6 at 12,500,000 (Cr branch) and at 500 (fallback). -/
theorem c6_abbreviation_thresholds_witness :
    ((10000000 : ℚ) ≤ |(12500000 : ℚ)| ∧
      formatNumber (some 12500000) true true =
        (if true then "₹ " else "") ++ stripTrailing (fixed2 ((12500000 : ℚ) / 10000000)) ++ "Cr")
    ∧ (|(500 : ℚ)| < 1000 ∧
      formatNumber (some 500) false true =
        (if false then "₹ " else "") ++ formatIndian (some 500)) :=
  ⟨⟨by norm_num, (c6_abbreviation_thresholds 12500000 true).1 (by norm_num)⟩,
    ⟨by norm_num, (c6_abbreviation_thresholds 500 false).2.2.2.1 (by norm_num)⟩⟩

/-- `commaJoin` of two-or-more groups unfolds one comma. -/
theorem commaJoin_cons_cons (a b : List Char) (t : List (List Char)) :
    commaJoin (a :: b :: t) = a ++ ',' :: commaJoin (b :: t) := rfl

/-- `commaJoin` over a snoc: the last group lands after a final comma. -/
theorem commaJoin_append_singleton (gs : List (List Char)) (g : List Char) (h : gs ≠ []) :
    commaJoin (gs ++ [g]) = commaJoin gs ++ ',' :: g := by
  induction gs with
  | nil => exact absurd rfl h
  | cons a t ih =>
      cases t with
      | nil => rfl
      | cons b u =>
          have ih2 := ih (by simp)
          rw [List.cons_append] at ih2
          calc commaJoin ((a :: b :: u) ++ [g])
              = a ++ ',' :: commaJoin (b :: (u ++ [g])) := by
                rw [List.cons_append, List.cons_append, commaJoin_cons_cons]
            _ = a ++ ',' :: (commaJoin (b :: u) ++ ',' :: g) := by rw [ih2]
            _ = (a ++ ',' :: commaJoin (b :: u)) ++ ',' :: g := by simp
            _ = commaJoin (a :: b :: u) ++ ',' :: g := by rw [commaJoin_cons_cons]

/-- `twoGroupsRev` of a nonempty list is nonempty. -/
theorem twoGroupsRev_ne_nil (cs : List Char) (h : cs ≠ []) : twoGroupsRev cs ≠ [] := by
  match cs with
  | [a] => simp [twoGroupsRev]
  | a :: b :: t => simp [twoGroupsRev]

/-- The accumulator loop of `format_indian` computes the comma-join of the
right-to-left two-digit groups followed by the accumulated suffix. -/
theorem groupLoop_eq_spec :
    ∀ (fuel : ℕ) (s acc : List Char), s.length ≤ fuel → s ≠ [] →
      groupLoop fuel s acc =
        commaJoin ((twoGroupsRev s.reverse).reverse) ++ ',' :: acc := by
  intro fuel
  induction fuel with
  | zero =>
      intro s acc hle hne
      cases s with
      | nil => exact absurd rfl hne
      | cons c cs => simp at hle
  | succ f ih =>
      intro s acc hle hne
      obtain ⟨c, cs, rfl⟩ := List.exists_cons_of_ne_nil hne
      by_cases h2 : (c :: cs).length ≤ 2
      · cases cs with
        | nil => simp [groupLoop, twoGroupsRev, commaJoin]
        | cons b t =>
            have ht : t = [] := by
              cases t with
              | nil => rfl
              | cons x u => simp at h2
            subst ht
            simp [groupLoop, twoGroupsRev, commaJoin]
      · push_neg at h2
        have hstep : groupLoop (f + 1) (c :: cs) acc =
            groupLoop f ((c :: cs).take ((c :: cs).length - 2))
              ((c :: cs).drop ((c :: cs).length - 2) ++ ',' :: acc) := rfl
        have hlen2 : 2 < (c :: cs).length := h2
        have htakelen : ((c :: cs).take ((c :: cs).length - 2)).length =
            (c :: cs).length - 2 := by
          rw [List.length_take]
          omega
        have hpre_ne : (c :: cs).take ((c :: cs).length - 2) ≠ [] := by
          intro hnil
          rw [hnil] at htakelen
          simp only [List.length_nil] at htakelen
          omega
        have hpre_le : ((c :: cs).take ((c :: cs).length - 2)).length ≤ f := by
          rw [htakelen]
          have hlef : (c :: cs).length ≤ f + 1 := hle
          omega
        have hdroplen : ((c :: cs).drop ((c :: cs).length - 2)).length = 2 := by
          rw [List.length_drop]
          omega
        obtain ⟨x, y, hxy⟩ : ∃ x y, (c :: cs).drop ((c :: cs).length - 2) = [x, y] := by
          match hd : (c :: cs).drop ((c :: cs).length - 2), hdroplen with
          | [x, y], _ => exact ⟨x, y, rfl⟩
        have hrev : (c :: cs).reverse =
            y :: x :: ((c :: cs).take ((c :: cs).length - 2)).reverse := by
          conv_lhs => rw [← List.take_append_drop ((c :: cs).length - 2) (c :: cs)]
          rw [List.reverse_append, hxy]
          rfl
        have hrevne : ((c :: cs).take ((c :: cs).length - 2)).reverse ≠ [] := by
          simpa using hpre_ne
        rw [hstep, ih _ _ hpre_le hpre_ne, hrev, hxy]
        rw [twoGroupsRev, List.reverse_cons,
          commaJoin_append_singleton _ _
            (by
              simp only [ne_eq, List.reverse_eq_nil_iff]
              exact twoGroupsRev_ne_nil _ hrevne)]
        simp

/-- The digit-grouping core of `format_indian` equals the spec-side
grouping: last three digits one group, two-digit groups to the left,
comma-separated. -/
theorem formatIndianDigits_eq_spec (s : List Char) :
    formatIndianDigits s = commaJoin (indianGroupsSpec s) := by
  unfold formatIndianDigits indianGroupsSpec
  by_cases h : s.length ≤ 3
  · rw [if_pos h, if_pos h]
    rfl
  · rw [if_neg h, if_neg h]
    push_neg at h
    have hlen : (s.take (s.length - 3)).length = s.length - 3 := by
      rw [List.length_take]
      omega
    have hne : s.take (s.length - 3) ≠ [] := by
      intro hnil
      rw [hnil] at hlen
      simp only [List.length_nil] at hlen
      omega
    have hrevne : (s.take (s.length - 3)).reverse ≠ [] := by simpa using hne
    rw [groupLoop_eq_spec _ _ _ le_rfl hne,
      commaJoin_append_singleton _ _
        (by
          simp only [ne_eq, List.reverse_eq_nil_iff]
          exact twoGroupsRev_ne_nil _ hrevne)]

/-- C7 counterexample: the input -1/2 is strictly negative, yet
`format_indian` renders it as `"0"` with no leading minus sign (the sign
the claim requires would give `"-0"`), because the truncated integer
magnitude is zero. -/
theorem c7_counterexample :
    (-(1 : ℚ)/2 < 0)
    ∧ formatIndian (some (-(1 : ℚ)/2)) = "0"
    ∧ ("0" : String) ≠ "-0" := by
  refine ⟨by norm_num, by with_unfolding_all rfl, by decide⟩

/-- C7 as amended: `format_indian` returns `"0"` for NaN and for every
input whose truncated integer part is zero (including negative inputs
above -1, which thus lose their sign); for every other input it renders
the decimal digits of the truncated magnitude grouped as the claim says —
last three digits one group, two-digit groups to the left, commas in
between — with a leading `"-"` exactly when the input is negative; the
spec's three examples hold. -/
theorem c7_indian_grouping :
    formatIndian none = "0"
    ∧ (∀ q : ℚ, truncQ q = 0 → formatIndian (some q) = "0")
    ∧ (∀ q : ℚ, truncQ q ≠ 0 →
        formatIndian (some q) =
          (if 0 ≤ q then "" else "-") ++
            String.mk (commaJoin (indianGroupsSpec (Nat.repr (truncQ q).natAbs).toList)))
    ∧ formatIndian (some 1234567) = "12,34,567"
    ∧ formatIndian (some 100) = "100"
    ∧ formatIndian (some (-5000)) = "-5,000" := by
  refine ⟨rfl, ?_, ?_, by decide, by decide, by decide⟩
  · intro q h
    simp [formatIndian, h]
  · intro q h
    have hn : (truncQ q).natAbs ≠ 0 := Int.natAbs_ne_zero.mpr h
    simp only [formatIndian, hn, if_false, formatIndianDigits_eq_spec]

/-- Witness for C7's amended statement at -5000 and at 1/2. -/
theorem c7_indian_grouping_witness :
    (truncQ (-5000 : ℚ) ≠ 0 ∧ formatIndian (some (-5000 : ℚ)) = "-5,000")
    ∧ (truncQ ((1 : ℚ)/2) = 0 ∧ formatIndian (some ((1 : ℚ)/2)) = "0") := by
  constructor
  · constructor
    · decide
    · have h := c7_indian_grouping.2.2.1 (-5000) (by decide)
      rw [h]
      with_unfolding_all rfl
  · constructor
    · with_unfolding_all decide
    · exact c7_indian_grouping.2.1 ((1 : ℚ)/2) (by with_unfolding_all decide)

/-- Membership in the active receivables set, unfolded. -/
theorem mem_activePairs {rows : List RRow} {p : String × String} :
    p ∈ activePairs rows ↔ ∃ r ∈ rows, 0 < r.bal ∧ p = (r.code, r.name) := by
  simp only [activePairs, List.mem_dedup, List.mem_map, List.mem_filter, decide_eq_true_eq]
  constructor
  · rintro ⟨a, ⟨ha, hb⟩, hc⟩
    exact ⟨a, ha, hb, hc.symm⟩
  · rintro ⟨r, hr, hb, rfl⟩
    exact ⟨r, ⟨hr, hb⟩, rfl⟩

/-- Membership in the active creditors set, unfolded. -/
theorem mem_activePairsC {rows : List CRow} {p : String × String} :
    p ∈ activePairsC rows ↔ ∃ r ∈ rows, 0 < r.bal ∧ p = (r.code, r.name) := by
  simp only [activePairsC, List.mem_dedup, List.mem_map, List.mem_filter, decide_eq_true_eq]
  constructor
  · rintro ⟨a, ⟨ha, hb⟩, hc⟩
    exact ⟨a, ha, hb, hc.symm⟩
  · rintro ⟨r, hr, hb, rfl⟩
    exact ⟨r, ⟨hr, hb⟩, rfl⟩

/-- With pairwise-distinct `(code, name)` keys, a receivables row's pair is
active exactly when its own balance is positive. -/
theorem pair_mem_active_iff {rows : List RRow}
    (hdist : rows.Pairwise (fun a b => (a.code, a.name) ≠ (b.code, b.name)))
    {r : RRow} (hr : r ∈ rows) :
    (r.code, r.name) ∈ activePairs rows ↔ 0 < r.bal := by
  constructor
  · intro h
    obtain ⟨r2, hr2, hb2, hpair⟩ := mem_activePairs.mp h
    by_cases he : r = r2
    · rw [he]; exact hb2
    · exfalso
      exact hdist.forall (fun a b hab => hab.symm) hr hr2 he hpair
  · intro hb
    exact mem_activePairs.mpr ⟨r, hr, hb, rfl⟩

/-- With pairwise-distinct `(code, name)` keys, a creditors row's pair is
active exactly when its own balance is positive. -/
theorem pairC_mem_active_iff {rows : List CRow}
    (hdist : rows.Pairwise (fun a b => (a.code, a.name) ≠ (b.code, b.name)))
    {r : CRow} (hr : r ∈ rows) :
    (r.code, r.name) ∈ activePairsC rows ↔ 0 < r.bal := by
  constructor
  · intro h
    obtain ⟨r2, hr2, hb2, hpair⟩ := mem_activePairsC.mp h
    by_cases he : r = r2
    · rw [he]; exact hb2
    · exfalso
      exact hdist.forall (fun a b hab => hab.symm) hr hr2 he hpair
  · intro hb
    exact mem_activePairsC.mpr ⟨r, hr, hb, rfl⟩

/-- C1 counterexample: a receivables dataset whose only entity has a
positive tail-bucket amount but zero total balance. The active set is
empty, the intersection step is skipped, and the entity is classified
high-risk — the claim says it must be excluded. -/
theorem c1_counterexample :
    (⟨"A", "A", 100, 0, 0, 0⟩ : RRow) ∈ highRiskRows [⟨"A", "A", 100, 0, 0, 0⟩]
    ∧ (⟨"A", "A", 100, 0, 0, 0⟩ : RRow).bal ≤ 0
    ∧ 0 < highRiskAmount ⟨"A", "A", 100, 0, 0, 0⟩ := by
  refine ⟨?_, ?_, ?_⟩
  · with_unfolding_all decide
  · decide
  · with_unfolding_all decide

/-- C1 as amended: provided the active set is nonempty (for receivables)
and the `(code, name)` keys are pairwise distinct, a row is classified
high-risk iff its tail-bucket amount is strictly positive and its pair is
in the active set; consequently a row with positive tail amount but
non-positive balance is excluded. When no entity has positive balance the
receivables dashboard skips the intersection, as the counterexample
shows. -/
theorem c1_high_risk_classification (rrows : List RRow) (crows : List CRow)
    (hactive : activePairs rrows ≠ [])
    (hdistR : rrows.Pairwise (fun a b => (a.code, a.name) ≠ (b.code, b.name)))
    (hdistC : crows.Pairwise (fun a b => (a.code, a.name) ≠ (b.code, b.name))) :
    (∀ r : RRow, r ∈ highRiskRows rrows ↔
        r ∈ rrows ∧ 0 < highRiskAmount r ∧ (r.code, r.name) ∈ activePairs rrows)
    ∧ (∀ r : CRow, r ∈ riskRowsC crows ↔
        r ∈ crows ∧ 0 < riskAmountC r ∧ (r.code, r.name) ∈ activePairsC crows)
    ∧ (∀ r : RRow, r ∈ rrows → 0 < highRiskAmount r → r.bal ≤ 0 →
        r ∉ highRiskRows rrows)
    ∧ (∀ r : CRow, r ∈ crows → 0 < riskAmountC r → r.bal ≤ 0 →
        r ∉ riskRowsC crows) := by
  have hR : ∀ r : RRow, r ∈ highRiskRows rrows ↔
      r ∈ rrows ∧ 0 < highRiskAmount r ∧ (r.code, r.name) ∈ activePairs rrows := by
    intro r
    unfold highRiskRows
    rw [if_neg hactive]
    simp only [List.mem_filter, decide_eq_true_eq]
    tauto
  have hC : ∀ r : CRow, r ∈ riskRowsC crows ↔
      r ∈ crows ∧ 0 < riskAmountC r ∧ (r.code, r.name) ∈ activePairsC crows := by
    intro r
    unfold riskRowsC
    by_cases hA : activePairsC crows = []
    · rw [if_pos hA]
      simp only [List.mem_filter, Bool.and_eq_true, decide_eq_true_eq]
      constructor
      · rintro ⟨hr, hrisk, hbal⟩
        exfalso
        have hmem : (r.code, r.name) ∈ activePairsC crows :=
          mem_activePairsC.mpr ⟨r, hr, hbal, rfl⟩
        rw [hA] at hmem
        exact List.not_mem_nil _ hmem
      · rintro ⟨hr, hrisk, hmem⟩
        rw [hA] at hmem
        exact absurd hmem (List.not_mem_nil _)
    · rw [if_neg hA]
      simp only [List.mem_filter, Bool.and_eq_true, decide_eq_true_eq]
      constructor
      · rintro ⟨⟨hr, hrisk, hbal⟩, hmem⟩
        exact ⟨hr, hrisk, hmem⟩
      · rintro ⟨hr, hrisk, hmem⟩
        exact ⟨⟨hr, hrisk, (pairC_mem_active_iff hdistC hr).mp hmem⟩, hmem⟩
  refine ⟨hR, hC, ?_, ?_⟩
  · intro r hr hra hbal hmem
    have := ((hR r).mp hmem).2.2
    exact absurd ((pair_mem_active_iff hdistR hr).mp this) (not_lt.mpr hbal)
  · intro r hr hra hbal hmem
    have := ((hC r).mp hmem).2.2
    exact absurd ((pairC_mem_active_iff hdistC hr).mp this) (not_lt.mpr hbal)

/-- Witness for C1's amended statement on a two-customer receivables
dataset and a two-creditor dataset. -/
theorem c1_high_risk_classification_witness :
    activePairs [⟨"A", "A", 100, 0, 0, 50⟩, ⟨"B", "B", 30, 0, 0, 0⟩] ≠ []
    ∧ (⟨"A", "A", 100, 0, 0, 50⟩ : RRow) ∈
        highRiskRows [⟨"A", "A", 100, 0, 0, 50⟩, ⟨"B", "B", 30, 0, 0, 0⟩]
    ∧ (⟨"B", "B", 30, 0, 0, 0⟩ : RRow) ∉
        highRiskRows [⟨"A", "A", 100, 0, 0, 50⟩, ⟨"B", "B", 30, 0, 0, 0⟩]
    ∧ (⟨"D", "D", 5, 0, 0⟩ : CRow) ∉
        riskRowsC [⟨"C", "C", 10, 0, 40⟩, ⟨"D", "D", 5, 0, 0⟩] := by
  have hdR : ([⟨"A", "A", 100, 0, 0, 50⟩, ⟨"B", "B", 30, 0, 0, 0⟩] : List RRow).Pairwise
      (fun a b => (a.code, a.name) ≠ (b.code, b.name)) := by
    simp [List.pairwise_cons]
  have hdC : ([⟨"C", "C", 10, 0, 40⟩, ⟨"D", "D", 5, 0, 0⟩] : List CRow).Pairwise
      (fun a b => (a.code, a.name) ≠ (b.code, b.name)) := by
    simp [List.pairwise_cons]
  have hact : activePairs [⟨"A", "A", 100, 0, 0, 50⟩, ⟨"B", "B", 30, 0, 0, 0⟩] ≠ [] := by
    with_unfolding_all decide
  have h := c1_high_risk_classification
    [⟨"A", "A", 100, 0, 0, 50⟩, ⟨"B", "B", 30, 0, 0, 0⟩]
    [⟨"C", "C", 10, 0, 40⟩, ⟨"D", "D", 5, 0, 0⟩] hact hdR hdC
  refine ⟨hact, ?_, ?_, ?_⟩
  · exact (h.1 _).mpr
      ⟨by decide, by with_unfolding_all decide, by with_unfolding_all decide⟩
  · exact h.2.2.1 _ (by decide) (by with_unfolding_all decide) (by decide)
  · exact h.2.2.2 _ (by decide) (by with_unfolding_all decide) (by decide)

end Holista

